import Mathlib

/-!
Verification of the Guild Wars Party Bot (`src/index.ts`) against its
natural-language specification.

The development shallowly embeds the party lifecycle core of the source:
the roster data model (`Party`, `PartySlot`), the per-interaction handler
branches that mutate rosters (claim/join, leave, switch, add-external,
kick, promote, disband, expire), the persistence round trip
(`saveData`/`loadData`, including the ECMAScript `Date` ISO-8601 encoding
used by `JSON.stringify`), the expiry-timer arithmetic
(`setupLockTimer`), and a small promise-machine model of the event loop
used to examine `withPartyLock`.

Occupants are encoded exactly as in the source: a slot's `user` is an
optional string, where a string with the prefix "IGN:" denotes an
external (non-platform) occupant and any other string is a member id.
-/

/-! ## Roster data model (src/index.ts lines 72-84) -/

/-- One roster slot: a fixed role label and an optional occupant string
(`user: string | null` in the source). -/
structure PartySlot where
  role : String
  user : Option String
deriving Repr, DecidableEq

/-- A party record as stored in `activeParties` (src/index.ts lines 77-84).
`createdAt` is the `Date` value modelled as milliseconds since the epoch;
`messageId` is optional exactly as in the source. -/
structure Party where
  type : String
  leader : String
  maxSize : Nat
  slots : List PartySlot
  createdAt : Nat
  messageId : Option String
deriving Repr, DecidableEq

/-- Typed failures surfaced to the interacting user by the handlers
(each constructor corresponds to one ephemeral failure reply in the source). -/
inductive LifecycleError where
  | NotFound        -- "This party no longer exists." / "locked or no longer exists"
  | AlreadyAssigned -- "You already have a role."
  | Full            -- "Party is full!"
  | SlotTaken       -- "That slot was just taken."
  | NoCurrentRole   -- "You don't have a role to switch."
  | NotLeader       -- "Only the party leader can ..."
  | EmptySlot       -- "That slot is already empty."
  | InvalidTarget   -- "You cannot promote an external (non-Discord) player."
  | EmptyName       -- "IGN cannot be empty."
deriving Repr, DecidableEq

/-- Outcome of one handler invocation: success, a typed failure reply, or a
thrown runtime exception (e.g. reading `.user` of `undefined` on an
out-of-range index), which the router's catch block turns into a generic
notice. -/
inductive OpOutcome where
  | ok
  | err (e : LifecycleError)
  | thrown
deriving Repr, DecidableEq

/-- Set the `user` field of the slot at index `i`, leaving the list unchanged
when `i` is out of range (callers range-check first where the source throws).
This models the in-place `party.slots[i].user = ...` assignments. -/
def setUser : List PartySlot → Nat → Option String → List PartySlot
  | [], _, _ => []
  | s :: rest, 0, u => { s with user := u } :: rest
  | s :: rest, n + 1, u => s :: setUser rest n u

/-- Number of slots whose occupant is exactly `some uid`. -/
def countOcc (slots : List PartySlot) (uid : String) : Nat :=
  slots.countP (fun s => s.user == some uid)

/-- `userId.startsWith('IGN:')`, the source's marker test distinguishing
External occupant strings from member ids (modelled on the character list,
since only the fixed literal "IGN:" is ever tested). -/
def startsWithIGN (u : String) : Bool :=
  match u.data with
  | 'I' :: 'G' :: 'N' :: ':' :: _ => true
  | _ => false

/-! ## Handler branches that read or mutate one party's roster -/

/-- Precondition section of `handleJoinAction` (src/index.ts lines 434-447):
reject a member who already occupies a slot, then reject when no slot is
free; otherwise the role menu is offered. -/
def joinCheck (p : Party) (uid : String) : Option LifecycleError :=
  if p.slots.any (fun s => s.user == some uid) then some .AlreadyAssigned
  else if (p.slots.filter (fun s => s.user == none)).length == 0 then some .Full
  else none

/-- The `pick_` select-menu branch (src/index.ts lines 691-709): re-check that
the chosen slot is still empty, then assign the member to it.  An
out-of-range index makes `party.slots[slotIdx].user` throw before any write. -/
def pickAssign (p : Party) (uid : String) (idx : Nat) : OpOutcome × Party :=
  match p.slots.get? idx with
  | none => (.thrown, p)
  | some s =>
    if s.user.isSome then (.err .SlotTaken, p)
    else (.ok, { p with slots := setUser p.slots idx (some uid) })

/-- The claim operation: the `handleJoinAction` precondition section followed
directly by the `pick_` assignment branch, the two code sites the spec's
`claim(partyId, memberId)` operation names. -/
def claimApply (p : Party) (uid : String) (idx : Nat) : OpOutcome × Party :=
  match joinCheck p uid with
  | some e => (.err e, p)
  | none => pickAssign p uid idx

/-- `handleLeaveAction` (src/index.ts lines 423-432): clear every slot whose
occupant equals the acting member; never an error. -/
def leaveApply (p : Party) (uid : String) : Party :=
  { p with
    slots := p.slots.map (fun s =>
      if s.user == some uid then { s with user := none } else s) }

/-- `Array.prototype.findIndex`: index of the first element satisfying the
predicate, with the source's `-1` result modelled as `none`. -/
def jsFindIndex : List PartySlot → (PartySlot → Bool) → Option Nat
  | [], _ => none
  | s :: rest, p =>
    if p s then some 0 else (jsFindIndex rest p).map (· + 1)

/-- The `switchpick_` select-menu branch (src/index.ts lines 716-737): find
the member's current slot (`findIndex`, `-1` check), clear it, then write the
member into the target slot.  The source performs no emptiness check on the
target; an out-of-range target throws only after the current slot was already
cleared. -/
def switchApply (p : Party) (uid : String) (newIdx : Nat) : OpOutcome × Party :=
  match jsFindIndex p.slots (fun s => s.user == some uid) with
  | none => (.err .NoCurrentRole, p)
  | some oldIdx =>
    let cleared := setUser p.slots oldIdx none
    if newIdx < p.slots.length then
      (.ok, { p with slots := setUser cleared newIdx (some uid) })
    else (.thrown, { p with slots := cleared })

/-- The ECMAScript white-space set trimmed by `String.prototype.trim`:
WhiteSpace (TAB VT FF SP NBSP ZWNBSP and the Unicode Zs spaces) together
with the LineTerminator code points. -/
def jsWhitespace (c : Char) : Bool :=
  let n := c.toNat
  n == 9 || n == 10 || n == 11 || n == 12 || n == 13 || n == 32 ||
  n == 160 || n == 5760 || (8192 ≤ n && n ≤ 8202) || n == 8232 ||
  n == 8233 || n == 8239 || n == 8287 || n == 12288 || n == 65279

/-- Drop trailing characters satisfying `jsWhitespace`. -/
def trimRightList : List Char → List Char
  | [] => []
  | c :: cs =>
    match trimRightList cs with
    | [] => if jsWhitespace c then [] else [c]
    | c' :: cs' => c :: c' :: cs'

/-- Model of `String.prototype.trim`: drop leading and trailing
ECMAScript white space. -/
def jsTrim (s : String) : String :=
  ⟨trimRightList (s.data.dropWhile jsWhitespace)⟩

/-- A character list has no white space at either edge (trivially true when
empty). -/
def noEdgeWs (cs : List Char) : Bool :=
  (match cs.head? with
   | none => true
   | some c => !jsWhitespace c) &&
  (match cs.getLast? with
   | none => true
   | some c => !jsWhitespace c)

/-- The `externalign_` modal branch (src/index.ts lines 856-884): leader-only,
re-check the reserved slot is still empty, trim the submitted IGN, reject an
empty result, and store the external occupant as `"IGN:" ++ ign`. -/
def addExternalApply (p : Party) (uid : String) (idx : Nat) (name : String) :
    OpOutcome × Party :=
  if uid ≠ p.leader then (.err .NotLeader, p)
  else
    match p.slots.get? idx with
    | none => (.thrown, p)
    | some s =>
      if s.user.isSome then (.err .SlotTaken, p)
      else
        let ign := jsTrim name
        if ign == "" then (.err .EmptyName, p)
        else (.ok, { p with slots := setUser p.slots idx (some ("IGN:" ++ ign)) })

/-- The `kickpick_` select-menu branch (src/index.ts lines 784-818):
leader-only, reject an already-empty slot, otherwise clear it regardless of
occupant variant. -/
def kickApply (p : Party) (uid : String) (idx : Nat) : OpOutcome × Party :=
  if uid ≠ p.leader then (.err .NotLeader, p)
  else
    match p.slots.get? idx with
    | none => (.thrown, p)
    | some s =>
      match s.user with
      | none => (.err .EmptySlot, p)
      | some _ => (.ok, { p with slots := setUser p.slots idx none })

/-- The `promotepick_` select-menu branch (src/index.ts lines 824-847):
leader-only; reject a target carrying the external "IGN:" marker; otherwise
set the leader to the target.  The source checks only the marker, not that
the target currently occupies a slot. -/
def promoteApply (p : Party) (uid : String) (target : String) :
    OpOutcome × Party :=
  if uid ≠ p.leader then (.err .NotLeader, p)
  else if startsWithIGN target then (.err .InvalidTarget, p)
  else (.ok, { p with leader := target })

/-! ## The active-party map and state-level operations -/

/-- Lookup in the `activeParties` map (association list on party id). -/
def mapGet : List (String × Party) → String → Option Party
  | [], _ => none
  | (k', v') :: rest, k => if k' = k then some v' else mapGet rest k

/-- `Map.set`: replace the value at an existing key in place, else append. -/
def mapSet : List (String × Party) → String → Party → List (String × Party)
  | [], k, v => [(k, v)]
  | (k', v') :: rest, k, v =>
    if k' = k then (k, v) :: rest else (k', v') :: mapSet rest k v

/-- `Map.delete`: remove the entry with the given key. -/
def mapErase (m : List (String × Party)) (k : String) : List (String × Party) :=
  m.filter (fun e => e.1 ≠ k)

/-- Process state seen by the lifecycle handlers: the in-memory
`activeParties` map and the snapshot last written by `saveData`
(persistence is modelled at the value level here; the byte-level encoding
is studied separately below). -/
structure BotState where
  parties : List (String × Party)
  disk : List (String × Party)
deriving Repr, DecidableEq

/-- One inbound lifecycle operation, as resolved by the interaction router. -/
inductive Op where
  | claim (pid uid : String) (idx : Nat)
  | vacate (pid uid : String)
  | switchRole (pid uid : String) (idx : Nat)
  | addExternal (pid uid : String) (idx : Nat) (name : String)
  | kick (pid uid : String) (idx : Nat)
  | promote (pid uid target : String)
  | disband (pid uid : String)
  | expire (pid : String)
deriving Repr, DecidableEq

/-- `saveData` at the value level: overwrite the disk snapshot with the whole
active set (src/index.ts lines 128-138). -/
def saveSnapshot (parties : List (String × Party)) (st : BotState) : BotState :=
  { st with parties := parties, disk := parties }

/-- Write back one mutated party and persist, as every successful mutating
handler does (`saveData()` after the in-place mutation). -/
def commitParty (st : BotState) (pid : String) (p : Party) : BotState :=
  saveSnapshot (mapSet st.parties pid p) st

/-- `lockParty` (src/index.ts lines 179-207), the expiry operation: a missing
party id or a party with no posted message returns without touching state;
every other path (message gone, edit succeeded, or edit failed) deletes the
party in the `finally` block and persists. -/
def expireApply (st : BotState) (pid : String) : OpOutcome × BotState :=
  match mapGet st.parties pid with
  | none => (.ok, st)
  | some p =>
    match p.messageId with
    | none => (.ok, st)
    | some _ => (.ok, saveSnapshot (mapErase st.parties pid) st)

/-- `handleDisbandAction` (src/index.ts lines 461-483): leader-only; delete
the party and persist. -/
def disbandApply (st : BotState) (pid : String) (p : Party) (uid : String) :
    OpOutcome × BotState :=
  if uid ≠ p.leader then (.err .NotLeader, st)
  else (.ok, saveSnapshot (mapErase st.parties pid) st)

/-- The interaction router joined with the handler bodies: look the party up
(absent parties are reported, not mutated), run the branch, and commit the
mutated party on success.  Error and thrown outcomes leave the state exactly
as received. -/
def applyOp (st : BotState) (op : Op) : OpOutcome × BotState :=
  match op with
  | .expire pid => expireApply st pid
  | .claim pid uid idx =>
    match mapGet st.parties pid with
    | none => (.err .NotFound, st)
    | some p =>
      match claimApply p uid idx with
      | (.ok, p') => (.ok, commitParty st pid p')
      | (out, _) => (out, st)
  | .vacate pid uid =>
    match mapGet st.parties pid with
    | none => (.err .NotFound, st)
    | some p => (.ok, commitParty st pid (leaveApply p uid))
  | .switchRole pid uid idx =>
    match mapGet st.parties pid with
    | none => (.err .NotFound, st)
    | some p =>
      match switchApply p uid idx with
      | (.ok, p') => (.ok, commitParty st pid p')
      | (.thrown, p') => (.thrown, { st with parties := mapSet st.parties pid p' })
      | (out, _) => (out, st)
  | .addExternal pid uid idx name =>
    match mapGet st.parties pid with
    | none => (.err .NotFound, st)
    | some p =>
      match addExternalApply p uid idx name with
      | (.ok, p') => (.ok, commitParty st pid p')
      | (out, _) => (out, st)
  | .kick pid uid idx =>
    match mapGet st.parties pid with
    | none => (.err .NotFound, st)
    | some p =>
      match kickApply p uid idx with
      | (.ok, p') => (.ok, commitParty st pid p')
      | (out, _) => (out, st)
  | .promote pid uid target =>
    match mapGet st.parties pid with
    | none => (.err .NotFound, st)
    | some p =>
      match promoteApply p uid target with
      | (.ok, p') => (.ok, commitParty st pid p')
      | (out, _) => (out, st)
  | .disband pid uid =>
    match mapGet st.parties pid with
    | none => (.err .NotFound, st)
    | some p => disbandApply st pid p uid

/-! ## Expiry timer arithmetic (src/index.ts lines 209-214) -/

/-- `CONFIG.lockTimeout`: 3 hours in milliseconds. -/
def lockTimeout : Int := 10800000

/-- `setupLockTimer`'s delay: `Math.max(0, CONFIG.lockTimeout - elapsed)`
with `elapsed = Date.now() - createdAt`. -/
def setupLockDelay (now createdAt : Int) : Int :=
  max 0 (lockTimeout - (now - createdAt))

/-- `loadData` re-arms a timer for every restored party from its restored
`createdAt` (src/index.ts lines 145-149). -/
def loadArmDelays (entries : List (String × Party)) (now : Int) :
    List (String × Int) :=
  entries.map (fun e => (e.1, setupLockDelay now (e.2.createdAt : Int)))

/-! ## ECMAScript `Date` ISO-8601 encoding

`saveData` serializes each party with `JSON.stringify`, which turns the
`createdAt` `Date` into its `toISOString()` form
(`YYYY-MM-DDTHH:mm:ss.sssZ`), and `loadData` restores it with
`new Date(string)`.  Both conversions are ECMAScript runtime behaviour;
they are modelled here concretely via the proleptic-Gregorian civil
calendar algorithm (the one V8 implements, due to Hinnant), restricted to
the years 1970-9999 where `toISOString` prints a four-digit year. -/

/-- Days from the start of an era (a 400-year cycle beginning 0000-03-01)
to the start of its year `y` (years taken to begin on March 1). -/
def startOfYoe (y : Nat) : Nat := 365 * y + y / 4 - y / 100

/-- The leap-day correction used to recover the year of an era from a day
of an era. -/
def leapAdj (doe : Nat) : Nat := doe - doe / 1460 + doe / 36524 - doe / 146096

/-- Year of the era of a day of the era. -/
def yoeOfDoe (doe : Nat) : Nat := leapAdj doe / 365

/-- Month index (0 = March) of a day of a March-based year. -/
def mpOfDoy (doy : Nat) : Nat := (5 * doy + 2) / 153

/-- Day of the month (1-based) of a day of a March-based year. -/
def dayOfDoy (doy : Nat) : Nat := doy - (153 * mpOfDoy doy + 2) / 5 + 1

/-- Civil month (1-12) of a day of a March-based year. -/
def monthOfDoy (doy : Nat) : Nat :=
  if mpOfDoy doy < 10 then mpOfDoy doy + 3 else mpOfDoy doy - 9

/-- Day of a March-based year from a civil month and day of month. -/
def doyBackOf (m d : Nat) : Nat :=
  (153 * (if 2 < m then m - 3 else m + 9) + 2) / 5 + d - 1

/-- Civil date `(year, month, day)` of a day count since 1970-01-01. -/
def civilFromDays (z : Nat) : Nat × Nat × Nat :=
  let z0 := z + 719468
  let era := z0 / 146097
  let doe := z0 % 146097
  let yoe := yoeOfDoe doe
  let doy := doe - startOfYoe yoe
  let m := monthOfDoy doy
  let y := yoe + era * 400
  (if m ≤ 2 then y + 1 else y, m, dayOfDoy doy)

/-- Day count since 1970-01-01 of a civil date (for dates at or after the
epoch). -/
def daysFromCivil (y m d : Nat) : Nat :=
  let y' := y - (if m ≤ 2 then 1 else 0)
  let era := y' / 400
  let yoe := y' % 400
  let doe := startOfYoe yoe + doyBackOf m d
  era * 146097 + doe - 719468

/-- Per-year certificate: `leapAdj` maps the days of year `y` of an era into
`[365 y, 365 y + 365)`, so dividing by 365 recovers the year. -/
def yearOk (y : Nat) : Bool :=
  decide (400 ≤ y) ||
  (decide (365 * y ≤ leapAdj (startOfYoe y))
    && decide (leapAdj (startOfYoe (y + 1) - 1) < 365 * y + 365))

/-- Per-day-of-year certificate: the month/day split inverts, the components
are in printable ranges, and January/February are exactly the days from 306
on. -/
def doyOk (doy : Nat) : Bool :=
  decide (366 ≤ doy) ||
  (let m := monthOfDoy doy
   let d := dayOfDoy doy
   (doyBackOf m d == doy) && decide (1 ≤ m) && decide (m ≤ 12)
   && decide (1 ≤ d) && decide (d ≤ 31)
   && (decide (m ≤ 2) == decide (306 ≤ doy)))

/-- Balanced-range conjunction of `f` over `[a, a + 2 ^ k)`, shaped to keep
kernel reduction shallow. -/
def rangeAll (f : Nat → Bool) : Nat → Nat → Bool
  | 0, a => f a
  | k + 1, a => rangeAll f k a && rangeAll f k (a + 2 ^ k)

/-- The milliseconds-since-epoch bound below which the year stays ≤ 9999
(the first instant of year 10000). -/
def msLimit : Nat := 253402300800000

/-- The seven printed components of an ISO-8601 timestamp. -/
structure DateParts where
  year : Nat
  month : Nat
  day : Nat
  hour : Nat
  minute : Nat
  second : Nat
  milli : Nat
deriving Repr, DecidableEq

/-- Split a millisecond timestamp into its ISO components. -/
def msToParts (ms : Nat) : DateParts :=
  let z := ms / 86400000
  let r := ms % 86400000
  let c := civilFromDays z
  ⟨c.1, c.2.1, c.2.2, r / 3600000, r % 3600000 / 60000, r % 60000 / 1000,
    r % 1000⟩

/-- Reassemble a millisecond timestamp from ISO components (the computation
`new Date(iso)` performs on the parsed fields). -/
def partsToMs (p : DateParts) : Nat :=
  daysFromCivil p.year p.month p.day * 86400000 +
  p.hour * 3600000 + p.minute * 60000 + p.second * 1000 + p.milli

/-- Decimal digit character for `n % 10`. -/
def digChar (n : Nat) : Char := Char.ofNat (48 + n % 10)

/-- Numeric value of a decimal digit character. -/
def digVal (c : Char) : Nat := c.toNat - 48

/-- Recognizer for decimal digit characters. -/
def isDig (c : Char) : Bool := decide (48 ≤ c.toNat) && decide (c.toNat ≤ 57)

/-- Two-digit zero-padded print of `n % 100`. -/
def pad2 (n : Nat) : List Char := [digChar (n / 10), digChar n]

/-- Three-digit zero-padded print of `n % 1000`. -/
def pad3 (n : Nat) : List Char := [digChar (n / 100), digChar (n / 10), digChar n]

/-- Four-digit zero-padded print of `n % 10000`. -/
def pad4 (n : Nat) : List Char :=
  [digChar (n / 1000), digChar (n / 100), digChar (n / 10), digChar n]

/-- The 24 characters of `Date.prototype.toISOString` for years 0-9999:
`YYYY-MM-DDTHH:mm:ss.sssZ`. -/
def isoChars (p : DateParts) : List Char :=
  pad4 p.year ++ '-' :: pad2 p.month ++ '-' :: pad2 p.day ++
  'T' :: pad2 p.hour ++ ':' :: pad2 p.minute ++ ':' :: pad2 p.second ++
  '.' :: pad3 p.milli ++ ['Z']

/-- `Date.prototype.toISOString`, as a string on millisecond timestamps. -/
def toISOString (ms : Nat) : String := ⟨isoChars (msToParts ms)⟩

/-- The ECMAScript date-time string parse (`new Date(string)`) on the exact
fixed-width format `toISOString` emits; anything else is out of the model's
range and rejected. -/
def parseISOChars : List Char → Option Nat
  | [y1, y2, y3, y4, '-', mo1, mo2, '-', d1, d2, 'T', h1, h2, ':',
     mi1, mi2, ':', s1, s2, '.', f1, f2, f3, 'Z'] =>
    if (([y1, y2, y3, y4, mo1, mo2, d1, d2, h1, h2, mi1, mi2, s1, s2, f1, f2,
          f3]).all isDig) then
      some (partsToMs
        ⟨digVal y1 * 1000 + digVal y2 * 100 + digVal y3 * 10 + digVal y4,
         digVal mo1 * 10 + digVal mo2,
         digVal d1 * 10 + digVal d2,
         digVal h1 * 10 + digVal h2,
         digVal mi1 * 10 + digVal mi2,
         digVal s1 * 10 + digVal s2,
         digVal f1 * 100 + digVal f2 * 10 + digVal f3⟩)
    else none
  | _ => none

/-- `new Date(s).getTime()` on serialized timestamps. -/
def jsDateParse (s : String) : Option Nat := parseISOChars s.data

/-! ## Persistence round trip (src/index.ts lines 128-155)

`saveData` writes `JSON.stringify(Array.from(activeParties.entries()))`;
`loadData` reads it back with `JSON.parse` and replaces each entry's
`createdAt` with `new Date(val.createdAt)`.  `JSON.stringify`/`JSON.parse`
are the identity on the JSON value tree, so persistence is modelled at
that level; the `Date`-to-string conversion is the `toISOString` model
above. -/

/-- JSON value trees as produced by `JSON.stringify` and read back by
`JSON.parse`. -/
inductive Json where
  | null
  | str (s : String)
  | num (n : Nat)
  | arr (elems : List Json)
  | obj (fields : List (String × Json))

/-- Serialized form of one slot: `{ role, user }`, with `null` for a vacant
slot. -/
def encodeSlot (s : PartySlot) : Json :=
  .obj [("role", .str s.role),
        ("user", match s.user with | none => .null | some u => .str u)]

/-- Serialized form of one party, with fields in the object's insertion
order; `messageId` is omitted when `undefined`, exactly as `JSON.stringify`
omits it, and `createdAt` is the `Date`'s ISO string. -/
def encodeParty (p : Party) : Json :=
  .obj ([("type", .str p.type),
         ("leader", .str p.leader),
         ("maxSize", .num p.maxSize),
         ("slots", .arr (p.slots.map encodeSlot)),
         ("createdAt", .str (toISOString p.createdAt))] ++
        (match p.messageId with
         | none => []
         | some m => [("messageId", .str m)]))

/-- Serialized form of the whole active set:
`Array.from(activeParties.entries())` is an array of `[key, party]` pairs. -/
def encodeEntries (entries : List (String × Party)) : Json :=
  .arr (entries.map (fun e => .arr [.str e.1, encodeParty e.2]))

/-- Read one slot back from its JSON form. -/
def decodeSlot : Json → Option PartySlot
  | .obj [("role", .str r), ("user", u)] =>
    match u with
    | .null => some ⟨r, none⟩
    | .str s => some ⟨r, some s⟩
    | _ => none
  | _ => none

/-- Read a list of slots back from their JSON forms. -/
def decodeSlots : List Json → Option (List PartySlot)
  | [] => some []
  | j :: rest =>
    match decodeSlot j, decodeSlots rest with
    | some s, some ss => some (s :: ss)
    | _, _ => none

/-- Read one party back from its JSON form, restoring `createdAt` from its
ISO string (`val.createdAt = new Date(val.createdAt)` in `loadData`). -/
def decodeParty (j : Json) : Option Party :=
  match j with
  | .obj (("type", .str ty) :: ("leader", .str l) :: ("maxSize", .num sz) ::
          ("slots", .arr slotJs) :: ("createdAt", .str ca) :: rest) =>
    match rest with
    | [] =>
      match decodeSlots slotJs, jsDateParse ca with
      | some slots, some ms => some ⟨ty, l, sz, slots, ms, none⟩
      | _, _ => none
    | [("messageId", .str mid)] =>
      match decodeSlots slotJs, jsDateParse ca with
      | some slots, some ms => some ⟨ty, l, sz, slots, ms, some mid⟩
      | _, _ => none
    | _ => none
  | _ => none

/-- Read a list of `[key, party]` pairs back. -/
def decodeEntryList : List Json → Option (List (String × Party))
  | [] => some []
  | .arr [.str k, pj] :: rest =>
    match decodeParty pj, decodeEntryList rest with
    | some p, some ps => some ((k, p) :: ps)
    | _, _ => none
  | _ => none

/-- Read the whole active set back, mirroring `loadData`'s traversal of the
parsed `[key, party]` pairs. -/
def decodeEntries (j : Json) : Option (List (String × Party)) :=
  match j with
  | .arr elems => decodeEntryList elems
  | _ => none

/-! ## Event-loop model of `withPartyLock` (src/index.ts lines 216-234)

A small promise machine for the cooperative event loop: handler bodies run
to completion between `await`s of external I/O promises (message edits and
ephemeral replies), and `withPartyLock` performs exactly the steps the
source performs.  The decisive, source-checked fact the machine embeds is
that `withPartyLock` reads the pending chain and stores
`previous.then(() => current)`, but runs `await fn()` immediately — no
`await previous` appears anywhere — so a body is never delayed behind the
chain. -/

/-- A handler body: the `pick_` branch's synchronous check-and-assign section
followed by the `await`s on external I/O promises of whichever reply path
was taken. -/
inductive HProg where
  | checkClaim (idx : Nat) (uid : String) (onOk onTaken : HProg)
  | awaitExt (tag : Nat) (k : HProg)
  | finish
deriving Repr, DecidableEq

/-- A handler invocation in flight: its remaining program, the party id it
locked, the `current` promise its `finally` block will resolve, and the
external promise it currently awaits. -/
structure MTask where
  name : String
  pid : String
  prog : HProg
  current : Nat
  waiting : Option Nat
deriving Repr, DecidableEq

/-- The event-loop state: one party's slots, the persisted snapshot, the
`partyLocks` map, the promise heap (id 0 is the pre-resolved
`Promise.resolve()`), suspended tasks, and the submission/completion logs. -/
structure Machine where
  slots : List (Option String)
  saved : List (Option String)
  locks : List (String × Nat)
  resolvedP : List Nat
  links : List (Nat × Nat × Nat)
  nextP : Nat
  tasks : List MTask
  started : List String
  completions : List String
deriving Repr, DecidableEq

/-- `partyLocks.get`. -/
def lookupLock : List (String × Nat) → String → Option Nat
  | [], _ => none
  | (k', v') :: rest, k => if k' = k then some v' else lookupLock rest k

/-- `partyLocks.set`. -/
def setLock : List (String × Nat) → String → Nat → List (String × Nat)
  | [], k, v => [(k, v)]
  | (k', v') :: rest, k, v =>
    if k' = k then (k, v) :: rest else (k', v') :: setLock rest k v

/-- One pass of promise-chain resolution: a `then`-chained promise resolves
once its source and the promise returned by its callback are both
resolved. -/
def propagateOnce (links : List (Nat × Nat × Nat)) (resolved : List Nat) :
    List Nat :=
  links.foldl (fun acc l =>
    if acc.contains l.1 && acc.contains l.2.1 && !acc.contains l.2.2 then
      l.2.2 :: acc
    else acc) resolved

/-- Resolve promise chains to a fixpoint (one pass per link suffices). -/
def propagate : Nat → List (Nat × Nat × Nat) → List Nat → List Nat
  | 0, _, r => r
  | n + 1, links, r => propagate n links (propagateOnce links r)

/-- Run one task until it suspends on an external promise or finishes.  The
`finish` case is `withPartyLock`'s `finally` block: call `release()`
(resolving `current`), then delete the map entry only if it still maps to
`current` — which it never does, since the stored promise is the chained
one. -/
def runProg (m : Machine) (name pid : String) (current : Nat) :
    HProg → Machine
  | .finish =>
    let resolved := propagate (m.links.length + 1) m.links
      (current :: m.resolvedP)
    let locks' :=
      if lookupLock m.locks pid == some current then
        m.locks.filter (fun e => e.1 ≠ pid)
      else m.locks
    { m with resolvedP := resolved, locks := locks',
             completions := m.completions ++ [name] }
  | .awaitExt tag k =>
    { m with tasks := m.tasks ++ [⟨name, pid, k, current, some tag⟩] }
  | .checkClaim idx uid onOk onTaken =>
    match m.slots.get? idx with
    | some none =>
      let slots' := m.slots.set idx (some uid)
      runProg { m with slots := slots', saved := slots' } name pid current onOk
    | _ => runProg m name pid current onTaken

/-- Run one task until it suspends or finishes. -/
def runTask (m : Machine) (t : MTask) : Machine :=
  runProg m t.name t.pid t.current t.prog

/-- `withPartyLock(partyId, fn)` as the source executes it: read the pending
chain (line 217), create `current` (lines 219-222), store
`previous.then(() => current)` (line 224), and then run the body at once
(line 227, `return await fn()`) — the stored `previous` is never awaited. -/
def submitLocked (m : Machine) (name pid : String) (body : HProg) : Machine :=
  let previous := (lookupLock m.locks pid).getD 0
  let current := m.nextP
  let chain := m.nextP + 1
  let m' := { m with
    nextP := m.nextP + 2,
    links := m.links ++ [(previous, current, chain)],
    locks := setLock m.locks pid chain,
    started := m.started ++ [name] }
  runTask m' { name := name, pid := pid, prog := body, current := current,
               waiting := none }

/-- Inbound events: a user interaction submitting a locked handler, or the
platform resolving one of the external I/O promises a handler awaits. -/
inductive MEvent where
  | submit (name pid : String) (body : HProg)
  | resolveExt (tag : Nat)
deriving Repr, DecidableEq

/-- Resume every task waiting on the resolved external promise, in queue
order, each running to its next suspension. -/
def resolveExtEvent (m : Machine) (tag : Nat) : Machine :=
  let ready := m.tasks.filter (fun t => t.waiting == some tag)
  let rest := m.tasks.filter (fun t => !(t.waiting == some tag))
  ready.foldl (fun acc t => runTask acc { t with waiting := none })
    { m with tasks := rest }

/-- Drive the machine over a list of events. -/
def runEvents (m : Machine) : List MEvent → Machine
  | [] => m
  | .submit name pid body :: evs => runEvents (submitLocked m name pid body) evs
  | .resolveExt tag :: evs => runEvents (resolveExtEvent m tag) evs

/-- A claim handler body: check-and-assign, then on success await the party
message edit and the interaction acknowledgement; on failure await the
"slot was just taken" reply. -/
def claimBody (idx : Nat) (uid : String) (editTag ackTag replyTag : Nat) :
    HProg :=
  .checkClaim idx uid (.awaitExt editTag (.awaitExt ackTag .finish))
    (.awaitExt replyTag .finish)

/-- A fresh machine with one single-slot party and nothing in flight. -/
def initMachine : Machine :=
  { slots := [none], saved := [none], locks := [], resolvedP := [0],
    links := [], nextP := 1, tasks := [], started := [], completions := [] }

/-- The FIFO test scenario: claim A (user alice) is submitted, then claim B
(user bob) for the same slot; B's failure reply resolves before A's message
edit does. -/
def fifoScenario : List MEvent :=
  [ .submit "A" "party_1" (claimBody 0 "alice" 10 11 12),
    .submit "B" "party_1" (claimBody 0 "bob" 20 21 22),
    .resolveExt 22,
    .resolveExt 10,
    .resolveExt 11 ]

/-! ## Concrete inputs used by witnesses and counterexamples -/

/-- A party whose leader is "L" with member "m1" in slot 0 and member "m2"
in slot 1. -/
def partyM1M2 : Party :=
  ⟨"FoWSC", "L", 8, [⟨"T1", some "m1"⟩, ⟨"T2", some "m2"⟩], 1700000000000,
   some "9001"⟩

/-- A party with "m1" in slot 0 and an empty slot 1. -/
def partyM1Free : Party :=
  ⟨"DoASC", "L", 8, [⟨"MT", some "m1"⟩, ⟨"TT", none⟩], 1700000000000,
   some "9002"⟩

/-- A party with two empty slots and nobody assigned. -/
def partyTwoFree : Party :=
  ⟨"FoWSC", "L", 8, [⟨"T1", none⟩, ⟨"T2", none⟩], 1700000000000, some "9004"⟩

/-- A party where member "m1" occupies two slots (the state the vacate
operation must fully clean up). -/
def partyM1Twice : Party :=
  ⟨"UWSC", "L", 8, [⟨"T1", some "m1"⟩, ⟨"T2", some "m1"⟩, ⟨"T3", some "m2"⟩],
   1700000000000, some "9003"⟩

/-- A party with one member, one external occupant and one free slot. -/
def partyMixed : Party :=
  ⟨"UWSC", "L1", 8, [⟨"T1", some "m1"⟩, ⟨"T2", none⟩, ⟨"LT", some "IGN:Bob"⟩],
   1760227200123, some "42"⟩

/-- A party that was created but whose announcement message was never
posted (`messageId` still `undefined`). -/
def partyUnposted : Party := ⟨"BogSC", "L", 8, [⟨"Tank", none⟩], 5, none⟩

/-- A single-entry active set holding `partyMixed`. -/
def stMixed : BotState :=
  ⟨[("party_1", partyMixed)], [("party_1", partyMixed)]⟩

/-- A single-entry active set holding `partyM1Twice`. -/
def stM1Twice : BotState :=
  ⟨[("party_1", partyM1Twice)], [("party_1", partyM1Twice)]⟩

/-- A two-entry active set: a posted party and an unposted one. -/
def stWithUnposted : BotState :=
  ⟨[("party_1", partyMixed), ("party_2", partyUnposted)],
   [("party_1", partyMixed)]⟩

/-! # Theorems

General helper lemmas first, then the per-claim theorems at the end of the
file. -/

/-! ## Range certificates -/

theorem rangeAll_spec (f : Nat → Bool) :
    ∀ (k a : Nat), rangeAll f k a = true → ∀ i, i < 2 ^ k → f (a + i) = true := by
  intro k
  induction k with
  | zero =>
    intro a h i hi
    have hi0 : i = 0 := by omega
    subst hi0
    simpa [rangeAll] using h
  | succ k ih =>
    intro a h i hi
    rw [rangeAll, Bool.and_eq_true] at h
    by_cases hlt : i < 2 ^ k
    · exact ih a h.1 i hlt
    · have hpow : 2 ^ (k + 1) = 2 ^ k + 2 ^ k := by
        rw [pow_succ]; omega
      have hi' : i - 2 ^ k < 2 ^ k := by omega
      have := ih (a + 2 ^ k) h.2 (i - 2 ^ k) hi'
      have harith : a + 2 ^ k + (i - 2 ^ k) = a + i := by omega
      rwa [harith] at this

set_option maxHeartbeats 2000000 in
theorem yearOk_all : rangeAll yearOk 9 0 = true := by decide

set_option maxHeartbeats 2000000 in
theorem doyOk_all : rangeAll doyOk 9 0 = true := by decide

theorem yearOk_holds (y : Nat) (hy : y < 400) :
    365 * y ≤ leapAdj (startOfYoe y) ∧
    leapAdj (startOfYoe (y + 1) - 1) < 365 * y + 365 := by
  have h := rangeAll_spec yearOk 9 0 yearOk_all y (by omega)
  rw [Nat.zero_add] at h
  rw [yearOk] at h
  have h400 : decide (400 ≤ y) = false := by simp; omega
  rw [h400, Bool.false_or, Bool.and_eq_true] at h
  exact ⟨of_decide_eq_true h.1, of_decide_eq_true h.2⟩

theorem doyOk_holds (doy : Nat) (hd : doy < 366) :
    doyBackOf (monthOfDoy doy) (dayOfDoy doy) = doy ∧
    1 ≤ monthOfDoy doy ∧ monthOfDoy doy ≤ 12 ∧
    1 ≤ dayOfDoy doy ∧ dayOfDoy doy ≤ 31 ∧
    ((monthOfDoy doy ≤ 2) ↔ (306 ≤ doy)) := by
  have h := rangeAll_spec doyOk 9 0 doyOk_all doy (by omega)
  rw [Nat.zero_add] at h
  rw [doyOk] at h
  have h366 : decide (366 ≤ doy) = false := by simp; omega
  rw [h366, Bool.false_or] at h
  simp only [Bool.and_eq_true, beq_iff_eq, decide_eq_true_eq,
    decide_eq_decide] at h
  exact ⟨h.1.1.1.1.1, h.1.1.1.1.2, h.1.1.1.2, h.1.1.2, h.1.2, h.2⟩

/-! ## Calendar round trip -/

theorem leapAdj_mono {a b : Nat} (hab : a ≤ b) (hb : b ≤ 146096) :
    leapAdj a ≤ leapAdj b := by
  unfold leapAdj; omega

theorem startOfYoe_covering :
    ∀ (N doe : Nat), doe < startOfYoe N →
      ∃ y, y < N ∧ startOfYoe y ≤ doe ∧ doe < startOfYoe (y + 1) := by
  intro N
  induction N with
  | zero => intro doe h; simp [startOfYoe] at h
  | succ N ih =>
    intro doe h
    by_cases hle : startOfYoe N ≤ doe
    · exact ⟨N, Nat.lt_succ_self N, hle, h⟩
    · obtain ⟨y, hy, h1, h2⟩ := ih doe (by omega)
      exact ⟨y, by omega, h1, h2⟩

theorem yoe_bracket (doe : Nat) (h : doe < 146097) :
    yoeOfDoe doe < 400 ∧ startOfYoe (yoeOfDoe doe) ≤ doe ∧
    doe - startOfYoe (yoeOfDoe doe) < 366 := by
  by_cases hbig : doe < 146096
  · have hcov : doe < startOfYoe 400 := by
      have : startOfYoe 400 = 146096 := by decide
      omega
    obtain ⟨y, hy, h1, h2⟩ := startOfYoe_covering 400 doe hcov
    obtain ⟨hlo, hhi⟩ := yearOk_holds y hy
    have hmono1 : leapAdj (startOfYoe y) ≤ leapAdj doe :=
      leapAdj_mono h1 (by omega)
    have hmono2 : leapAdj doe ≤ leapAdj (startOfYoe (y + 1) - 1) := by
      apply leapAdj_mono (by omega)
      have : startOfYoe (y + 1) ≤ startOfYoe 400 := by
        unfold startOfYoe; omega
      have h400 : startOfYoe 400 = 146096 := by decide
      omega
    have hdiv : yoeOfDoe doe = y := by
      unfold yoeOfDoe
      have hlow : 365 * y ≤ leapAdj doe := by omega
      have hup : leapAdj doe < 365 * (y + 1) := by omega
      omega
    rw [hdiv]
    have hgap : startOfYoe (y + 1) ≤ startOfYoe y + 366 := by
      unfold startOfYoe; omega
    exact ⟨hy, h1, by omega⟩
  · have hde : doe = 146096 := by omega
    subst hde
    refine ⟨?_, ?_, ?_⟩ <;> decide

theorem civil_roundtrip (z : Nat) (hz : z < 2932897) :
    daysFromCivil (civilFromDays z).1 (civilFromDays z).2.1
      (civilFromDays z).2.2 = z ∧
    (civilFromDays z).1 ≤ 9999 ∧ 1 ≤ (civilFromDays z).2.1 ∧
    (civilFromDays z).2.1 ≤ 12 ∧ 1 ≤ (civilFromDays z).2.2 ∧
    (civilFromDays z).2.2 ≤ 31 := by
  have h146097 : (0 : Nat) < 146097 := by norm_num
  have hdoe : z + 719468 - 146097 * ((z + 719468) / 146097) < 146097 := by
    omega
  set z0 := z + 719468 with hz0
  set era := z0 / 146097 with hera
  set doe := z0 % 146097 with hdoeDef
  have hdm : 146097 * era + doe = z0 := Nat.div_add_mod z0 146097
  have hdoeLt : doe < 146097 := Nat.mod_lt _ h146097
  obtain ⟨hyoeLt, hyoeLe, hdoyLt⟩ := yoe_bracket doe hdoeLt
  set yoe := yoeOfDoe doe with hyoe
  set doy := doe - startOfYoe yoe with hdoy
  obtain ⟨hback, hm1, hm12, hd1, hd31, hfeb⟩ := doyOk_holds doy hdoyLt
  set m := monthOfDoy doy with hmDef
  set d := dayOfDoy doy with hdDef
  have heraLe : era ≤ 24 := by omega
  have hcf : civilFromDays z =
      (if m ≤ 2 then yoe + era * 400 + 1 else yoe + era * 400, m, d) := rfl
  have hstart399 : startOfYoe 399 = 145731 := by decide
  have hyear : (if m ≤ 2 then yoe + era * 400 + 1 else yoe + era * 400) ≤ 9999 := by
    by_cases hm2 : m ≤ 2
    · rw [if_pos hm2]
      by_cases he24 : era = 24
      · have hdoeSmall : doe ≤ 146036 := by omega
        have hdoy306 : 306 ≤ doy := hfeb.mp hm2
        have hyoe399 : yoe ≠ 399 := by
          intro hcontra
          rw [hcontra] at hyoeLe hdoy
          omega
        omega
      · omega
    · rw [if_neg hm2]; omega
  rw [hcf]
  refine ⟨?_, hyear, hm1, hm12, hd1, hd31⟩
  simp only [daysFromCivil]
  have hyeq : (if m ≤ 2 then yoe + era * 400 + 1 else yoe + era * 400) -
      (if m ≤ 2 then 1 else 0) = yoe + era * 400 := by
    split <;> omega
  rw [hyeq]
  have hdiv400 : (yoe + era * 400) / 400 = era := by
    rw [Nat.add_mul_div_right _ _ (by norm_num : (0:Nat) < 400)]
    omega
  have hmod400 : (yoe + era * 400) % 400 = yoe := by
    rw [Nat.add_mul_mod_self_right]
    exact Nat.mod_eq_of_lt hyoeLt
  rw [hdiv400, hmod400, hback]
  omega

/-! ## Timestamp and ISO-string round trip -/

theorem ms_roundtrip (ms : Nat) (h : ms < msLimit) :
    partsToMs (msToParts ms) = ms ∧ (msToParts ms).year ≤ 9999 ∧
    1 ≤ (msToParts ms).month ∧ (msToParts ms).month ≤ 12 ∧
    1 ≤ (msToParts ms).day ∧ (msToParts ms).day ≤ 31 ∧
    (msToParts ms).hour ≤ 23 ∧ (msToParts ms).minute ≤ 59 ∧
    (msToParts ms).second ≤ 59 ∧ (msToParts ms).milli ≤ 999 := by
  rw [msLimit] at h
  have hz : ms / 86400000 < 2932897 := by omega
  obtain ⟨hrt, hy, hm1, hm12, hd1, hd31⟩ := civil_roundtrip (ms / 86400000) hz
  simp only [msToParts, partsToMs]
  refine ⟨?_, hy, hm1, hm12, hd1, hd31, by omega, by omega, by omega, by omega⟩
  rw [hrt]
  omega

theorem digit_facts :
    ∀ k, k < 10 →
      digVal (Char.ofNat (48 + k)) = k ∧ isDig (Char.ofNat (48 + k)) = true := by
  decide

theorem digVal_digChar (n : Nat) : digVal (digChar n) = n % 10 :=
  (digit_facts (n % 10) (Nat.mod_lt _ (by norm_num))).1

theorem isDig_digChar (n : Nat) : isDig (digChar n) = true :=
  (digit_facts (n % 10) (Nat.mod_lt _ (by norm_num))).2

theorem parseISOChars_isoChars (p : DateParts) (hy : p.year < 10000)
    (hmo : p.month < 100) (hd : p.day < 100) (hh : p.hour < 100)
    (hmi : p.minute < 100) (hs : p.second < 100) (hf : p.milli < 1000) :
    parseISOChars (isoChars p) = some (partsToMs p) := by
  obtain ⟨y, mo, d, h, mi, s, f⟩ := p
  simp only at hy hmo hd hh hmi hs hf
  have step : parseISOChars (isoChars ⟨y, mo, d, h, mi, s, f⟩) =
      if ([digChar (y / 1000), digChar (y / 100), digChar (y / 10), digChar y,
           digChar (mo / 10), digChar mo, digChar (d / 10), digChar d,
           digChar (h / 10), digChar h, digChar (mi / 10), digChar mi,
           digChar (s / 10), digChar s, digChar (f / 100), digChar (f / 10),
           digChar f].all isDig) then
        some (partsToMs
          ⟨digVal (digChar (y / 1000)) * 1000 + digVal (digChar (y / 100)) * 100 +
             digVal (digChar (y / 10)) * 10 + digVal (digChar y),
           digVal (digChar (mo / 10)) * 10 + digVal (digChar mo),
           digVal (digChar (d / 10)) * 10 + digVal (digChar d),
           digVal (digChar (h / 10)) * 10 + digVal (digChar h),
           digVal (digChar (mi / 10)) * 10 + digVal (digChar mi),
           digVal (digChar (s / 10)) * 10 + digVal (digChar s),
           digVal (digChar (f / 100)) * 100 + digVal (digChar (f / 10)) * 10 +
             digVal (digChar f)⟩)
      else none := rfl
  rw [step]
  have hall : ([digChar (y / 1000), digChar (y / 100), digChar (y / 10),
      digChar y, digChar (mo / 10), digChar mo, digChar (d / 10), digChar d,
      digChar (h / 10), digChar h, digChar (mi / 10), digChar mi,
      digChar (s / 10), digChar s, digChar (f / 100), digChar (f / 10),
      digChar f].all isDig) = true := by
    simp [List.all_cons, isDig_digChar]
  rw [hall, if_pos rfl]
  have hparts : (⟨digVal (digChar (y / 1000)) * 1000 +
        digVal (digChar (y / 100)) * 100 + digVal (digChar (y / 10)) * 10 +
        digVal (digChar y),
      digVal (digChar (mo / 10)) * 10 + digVal (digChar mo),
      digVal (digChar (d / 10)) * 10 + digVal (digChar d),
      digVal (digChar (h / 10)) * 10 + digVal (digChar h),
      digVal (digChar (mi / 10)) * 10 + digVal (digChar mi),
      digVal (digChar (s / 10)) * 10 + digVal (digChar s),
      digVal (digChar (f / 100)) * 100 + digVal (digChar (f / 10)) * 10 +
        digVal (digChar f)⟩ : DateParts) = ⟨y, mo, d, h, mi, s, f⟩ := by
    simp only [digVal_digChar, DateParts.mk.injEq]
    refine ⟨?_, ?_, ?_, ?_, ?_, ?_, ?_⟩ <;> omega
  rw [hparts]

theorem parse_toISOString (ms : Nat) (h : ms < msLimit) :
    jsDateParse (toISOString ms) = some ms := by
  obtain ⟨hrt, hy, hm1, hm12, hd1, hd31, hh, hmi, hs, hf⟩ := ms_roundtrip ms h
  show parseISOChars (isoChars (msToParts ms)) = some ms
  rw [parseISOChars_isoChars (msToParts ms) (by omega) (by omega) (by omega)
    (by omega) (by omega) (by omega) (by omega), hrt]

/-! ## Snapshot encode/decode round trip -/

theorem decodeSlot_encodeSlot (s : PartySlot) : decodeSlot (encodeSlot s) = some s := by
  obtain ⟨r, u⟩ := s
  cases u <;> simp [encodeSlot, decodeSlot]

theorem decodeSlots_encodeSlots (slots : List PartySlot) :
    decodeSlots (slots.map encodeSlot) = some slots := by
  induction slots with
  | nil => rfl
  | cons s rest ih =>
    simp only [List.map_cons, decodeSlots, decodeSlot_encodeSlot, ih]

theorem encodeParty_eq_none (ty l : String) (sz : Nat)
    (slots : List PartySlot) (ca : Nat) :
    encodeParty ⟨ty, l, sz, slots, ca, none⟩ =
      .obj [("type", .str ty), ("leader", .str l), ("maxSize", .num sz),
            ("slots", .arr (slots.map encodeSlot)),
            ("createdAt", .str (toISOString ca))] := rfl

theorem encodeParty_eq_some (ty l : String) (sz : Nat)
    (slots : List PartySlot) (ca : Nat) (mid : String) :
    encodeParty ⟨ty, l, sz, slots, ca, some mid⟩ =
      .obj [("type", .str ty), ("leader", .str l), ("maxSize", .num sz),
            ("slots", .arr (slots.map encodeSlot)),
            ("createdAt", .str (toISOString ca)),
            ("messageId", .str mid)] := rfl

theorem decodeParty_obj_none (ty l : String) (sz : Nat) (sj : List Json)
    (ca : String) :
    decodeParty (.obj [("type", .str ty), ("leader", .str l),
        ("maxSize", .num sz), ("slots", .arr sj), ("createdAt", .str ca)]) =
      (match decodeSlots sj, jsDateParse ca with
       | some ss, some ms => some ⟨ty, l, sz, ss, ms, none⟩
       | _, _ => none) := rfl

theorem decodeParty_obj_some (ty l : String) (sz : Nat) (sj : List Json)
    (ca mid : String) :
    decodeParty (.obj [("type", .str ty), ("leader", .str l),
        ("maxSize", .num sz), ("slots", .arr sj), ("createdAt", .str ca),
        ("messageId", .str mid)]) =
      (match decodeSlots sj, jsDateParse ca with
       | some ss, some ms => some ⟨ty, l, sz, ss, ms, some mid⟩
       | _, _ => none) := rfl

theorem decodeParty_encodeParty (p : Party) (h : p.createdAt < msLimit) :
    decodeParty (encodeParty p) = some p := by
  obtain ⟨ty, l, sz, slots, ca, mid⟩ := p
  simp only at h
  cases mid with
  | none =>
    rw [encodeParty_eq_none, decodeParty_obj_none,
      decodeSlots_encodeSlots slots, parse_toISOString ca h]
  | some mid =>
    rw [encodeParty_eq_some, decodeParty_obj_some,
      decodeSlots_encodeSlots slots, parse_toISOString ca h]

theorem decodeEntries_encodeEntries (entries : List (String × Party))
    (h : ∀ e ∈ entries, e.2.createdAt < msLimit) :
    decodeEntries (encodeEntries entries) = some entries := by
  have main : ∀ (l : List (String × Party)),
      (∀ e ∈ l, e.2.createdAt < msLimit) →
      decodeEntryList (l.map (fun e => .arr [.str e.1, encodeParty e.2])) =
        some l := by
    intro l
    induction l with
    | nil => intro _; rfl
    | cons e rest ih =>
      intro hl
      have hp : e.2.createdAt < msLimit := hl e (List.mem_cons_self _ _)
      have hrest := fun x hx => hl x (List.mem_cons_of_mem _ hx)
      obtain ⟨k, p⟩ := e
      simp only [List.map_cons, decodeEntryList,
        decodeParty_encodeParty p hp, ih hrest]
  exact main entries h

/-! ## Association-list and slot-list helpers -/

theorem mapGet_mapSet_self :
    ∀ (m : List (String × Party)) (k : String) (v : Party),
      mapGet (mapSet m k v) k = some v := by
  intro m
  induction m with
  | nil => intro k v; simp [mapSet, mapGet]
  | cons e rest ih =>
    intro k v
    obtain ⟨k', v'⟩ := e
    rw [mapSet]
    by_cases hk : k' = k
    · simp only [hk, if_true]
      show (if k = k then some v else mapGet rest k) = some v
      rw [if_pos rfl]
    · simp only [hk, if_false]
      show (if k' = k then some v' else mapGet (mapSet rest k v) k) = some v
      rw [if_neg hk]
      exact ih k v

theorem mapGet_mapErase_self :
    ∀ (m : List (String × Party)) (k : String),
      mapGet (mapErase m k) k = none := by
  intro m
  induction m with
  | nil => intro k; rfl
  | cons e rest ih =>
    intro k
    obtain ⟨k', v'⟩ := e
    rw [mapErase, List.filter_cons]
    by_cases hk : k' = k
    · have hd : (decide ((k', v').1 ≠ k)) = false := by simp [hk]
      rw [hd]
      exact ih k
    · have hd : (decide ((k', v').1 ≠ k)) = true := by simp [hk]
      rw [hd]
      show (if k' = k then some v' else mapGet (mapErase rest k) k) = none
      rw [if_neg hk]
      exact ih k

theorem get?_setUser (u' : Option String) :
    ∀ (l : List PartySlot) (i : Nat) (s : PartySlot), l.get? i = some s →
      (setUser l i u').get? i = some { s with user := u' } := by
  intro l
  induction l with
  | nil => intro i s h; cases i <;> exact Option.noConfusion h
  | cons a rest ih =>
    intro i s h
    cases i with
    | zero =>
      rw [List.get?] at h
      rcases Option.some.inj h with rfl
      rfl
    | succ n =>
      rw [List.get?] at h
      rw [setUser, List.get?]
      exact ih n s h

/-! ## Trim helpers -/

theorem head_dropWhile_not_ws :
    ∀ (l : List Char) (c : Char),
      (l.dropWhile jsWhitespace).head? = some c → jsWhitespace c = false := by
  intro l
  induction l with
  | nil => intro c h; exact Option.noConfusion h
  | cons a rest ih =>
    intro c h
    rw [List.dropWhile_cons] at h
    cases ha : jsWhitespace a with
    | true => rw [ha] at h; simp only [if_true] at h; exact ih c h
    | false =>
      rw [ha] at h
      simp only [Bool.false_eq_true, if_false, List.head?_cons] at h
      rcases Option.some.inj h with rfl
      exact ha

theorem trimRight_head :
    ∀ (l : List Char) (c : Char),
      (trimRightList l).head? = some c → l.head? = some c := by
  intro l
  induction l with
  | nil => intro c h; exact Option.noConfusion h
  | cons a rest ih =>
    intro c h
    rw [trimRightList] at h
    cases htr : trimRightList rest with
    | nil =>
      rw [htr] at h
      cases hws : jsWhitespace a with
      | true => rw [hws] at h; simp at h
      | false =>
        rw [hws] at h
        simp only [Bool.false_eq_true, if_false, List.head?_cons] at h
        rcases Option.some.inj h with rfl
        rfl
    | cons c' cs' =>
      rw [htr] at h
      rw [List.head?_cons] at h
      rcases Option.some.inj h with rfl
      rfl

theorem trimRight_last_not_ws :
    ∀ (l : List Char) (c : Char),
      (trimRightList l).getLast? = some c → jsWhitespace c = false := by
  intro l
  induction l with
  | nil => intro c h; exact Option.noConfusion h
  | cons a rest ih =>
    intro c h
    rw [trimRightList] at h
    cases htr : trimRightList rest with
    | nil =>
      rw [htr] at h
      cases hws : jsWhitespace a with
      | true => rw [hws] at h; simp at h
      | false =>
        rw [hws] at h
        simp only [Bool.false_eq_true, if_false] at h
        have : c = a := by
          have := h
          rw [List.getLast?_singleton] at this
          exact (Option.some.inj this).symm
        rw [this]
        exact hws
    | cons c' cs' =>
      rw [htr] at h
      rw [List.getLast?_cons_cons] at h
      rw [← htr] at h
      exact ih c h

theorem dropWhile_all_ws :
    ∀ l : List Char, l.all jsWhitespace = true →
      l.dropWhile jsWhitespace = [] := by
  intro l
  induction l with
  | nil => intro _; rfl
  | cons a rest ih =>
    intro h
    rw [List.all_cons, Bool.and_eq_true] at h
    rw [List.dropWhile_cons, h.1]
    simp only [if_true]
    exact ih h.2

theorem jsTrim_all_ws (s : String) (h : s.data.all jsWhitespace = true) :
    jsTrim s = "" := by
  rw [jsTrim, dropWhile_all_ws s.data h]
  rfl

theorem noEdgeWs_jsTrim (s : String) : noEdgeWs (jsTrim s).data = true := by
  rw [jsTrim]
  show noEdgeWs (trimRightList (s.data.dropWhile jsWhitespace)) = true
  rw [noEdgeWs, Bool.and_eq_true]
  constructor
  · cases hh : (trimRightList (s.data.dropWhile jsWhitespace)).head? with
    | none => rfl
    | some c =>
      have h1 := trimRight_head _ c hh
      have h2 := head_dropWhile_not_ws s.data c h1
      simp only [h2]
      rfl
  · cases hl : (trimRightList (s.data.dropWhile jsWhitespace)).getLast? with
    | none => rfl
    | some c =>
      have h1 := trimRight_last_not_ws _ c hl
      simp only [h1]
      rfl

/-! # Claim theorems -/

/-- Claim C1 (evidence of the code bug): in the embedded event-loop model of
`withPartyLock`, claim A then claim B submitted against the same party id
both start immediately (`withPartyLock` never awaits the stored chain), so
after only A's submission, B's submission and B's reply resolution, B has
already completed while A is still suspended; the final completion order is
B before A, refuting FIFO completion and at-most-one-in-flight, even though
the slot check-and-assign is synchronous so exactly one claim (A) took the
slot. -/
theorem withPartyLock_not_fifo :
    (runEvents initMachine fifoScenario).started = ["A", "B"] ∧
    (runEvents initMachine (fifoScenario.take 3)).completions = ["B"] ∧
    (runEvents initMachine fifoScenario).completions = ["B", "A"] ∧
    (runEvents initMachine fifoScenario).slots = [some "alice"] :=
  ⟨rfl, rfl, rfl, rfl⟩

/-- Claim C2 (evidence of the code bug): the `pick_` branch re-checks only
slot emptiness, never AlreadyAssigned — that check runs one interaction
earlier, when `handleJoinAction` builds the role menu.  From a party where
member "m" holds no slot the join menu is offered (twice, both menus
live); picking slot 0 and then slot 1 both succeed, so the second pick —
made while "m" already occupies slot 0 — is not rejected with
AlreadyAssigned and leaves "m" holding two slots, violating the
at-most-one-slot-per-member-id invariant. -/
theorem pick_assigns_second_slot :
    joinCheck partyTwoFree "m" = none ∧
    (pickAssign partyTwoFree "m" 0).1 = .ok ∧
    (pickAssign (pickAssign partyTwoFree "m" 0).2 "m" 1).1 = .ok ∧
    countOcc ((pickAssign (pickAssign partyTwoFree "m" 0).2 "m" 1).2).slots
      "m" = 2 := by
  decide

/-- Claim C3 (evidence of the code bug): the `switchpick_` branch carries no
SlotTaken check — member "m1" switching onto the slot currently occupied by
"m2" reports success and overwrites "m2", instead of failing with SlotTaken
and leaving the roster unchanged. -/
theorem switch_overwrites_occupied_slot :
    switchApply partyM1M2 "m1" 1 =
      (.ok, ⟨"FoWSC", "L", 8, [⟨"T1", none⟩, ⟨"T2", some "m1"⟩],
             1700000000000, some "9001"⟩) := by
  decide

/-- Claim C4: whenever a lifecycle operation reports a typed failure, the
process state — the active-party map and the persisted snapshot — is exactly
the state it started from; all precondition checks precede every write. -/
theorem typed_failure_no_mutation (st : BotState) (op : Op)
    (e : LifecycleError) (h : (applyOp st op).1 = .err e) :
    (applyOp st op).2 = st := by
  cases op with
  | claim pid uid idx =>
    simp only [applyOp] at h ⊢
    cases hg : mapGet st.parties pid with
    | none => simp only [hg]
    | some p =>
      simp only [hg] at h ⊢
      rcases hc : claimApply p uid idx with ⟨out, p'⟩
      rw [hc] at h
      cases out with
      | ok => exact OpOutcome.noConfusion h
      | err e' => rfl
      | thrown => rfl
  | vacate pid uid =>
    simp only [applyOp] at h ⊢
    cases hg : mapGet st.parties pid with
    | none => simp only [hg]
    | some p =>
      simp only [hg] at h
      exact OpOutcome.noConfusion h
  | switchRole pid uid idx =>
    simp only [applyOp] at h ⊢
    cases hg : mapGet st.parties pid with
    | none => simp only [hg]
    | some p =>
      simp only [hg] at h ⊢
      rcases hc : switchApply p uid idx with ⟨out, p'⟩
      rw [hc] at h
      cases out with
      | ok => exact OpOutcome.noConfusion h
      | err e' => rfl
      | thrown => exact OpOutcome.noConfusion h
  | addExternal pid uid idx name =>
    simp only [applyOp] at h ⊢
    cases hg : mapGet st.parties pid with
    | none => simp only [hg]
    | some p =>
      simp only [hg] at h ⊢
      rcases hc : addExternalApply p uid idx name with ⟨out, p'⟩
      rw [hc] at h
      cases out with
      | ok => exact OpOutcome.noConfusion h
      | err e' => rfl
      | thrown => rfl
  | kick pid uid idx =>
    simp only [applyOp] at h ⊢
    cases hg : mapGet st.parties pid with
    | none => simp only [hg]
    | some p =>
      simp only [hg] at h ⊢
      rcases hc : kickApply p uid idx with ⟨out, p'⟩
      rw [hc] at h
      cases out with
      | ok => exact OpOutcome.noConfusion h
      | err e' => rfl
      | thrown => rfl
  | promote pid uid target =>
    simp only [applyOp] at h ⊢
    cases hg : mapGet st.parties pid with
    | none => simp only [hg]
    | some p =>
      simp only [hg] at h ⊢
      rcases hc : promoteApply p uid target with ⟨out, p'⟩
      rw [hc] at h
      cases out with
      | ok => exact OpOutcome.noConfusion h
      | err e' => rfl
      | thrown => rfl
  | disband pid uid =>
    simp only [applyOp] at h ⊢
    cases hg : mapGet st.parties pid with
    | none => simp only [hg]
    | some p =>
      simp only [hg, disbandApply] at h ⊢
      by_cases hl : uid ≠ p.leader
      · rw [if_pos hl]
      · rw [if_neg hl] at h
        exact OpOutcome.noConfusion h
  | expire pid =>
    simp only [applyOp, expireApply] at h ⊢
    cases hg : mapGet st.parties pid with
    | none => simp only [hg]
    | some p =>
      simp only [hg] at h ⊢
      cases hm : p.messageId with
      | none => simp only [hm]
      | some mid =>
        simp only [hm] at h
        exact OpOutcome.noConfusion h

/-- Witness for C4: a non-leader's promote attempt fails with NotLeader and
the state is exactly as before. -/
theorem typed_failure_no_mutation_witness :
    (applyOp stMixed (.promote "party_1" "intruder" "m1")).1 =
      .err .NotLeader ∧
    (applyOp stMixed (.promote "party_1" "intruder" "m1")).2 = stMixed :=
  ⟨by decide,
   typed_failure_no_mutation stMixed (.promote "party_1" "intruder" "m1")
     .NotLeader (by decide)⟩

/-- Claim C5: saving the active-party set and loading it back reproduces an
identical set — every id maps to an equal `Party`, slot occupants (member
and external variants alike) survive, and `createdAt` round-trips through
its full-precision ISO-8601 millisecond serialization (for any timestamp
whose year is at most 9999, the range `toISOString` covers with a four-digit
year). -/
theorem save_load_roundtrip (entries : List (String × Party))
    (h : ∀ e ∈ entries, e.2.createdAt < msLimit) :
    decodeEntries (encodeEntries entries) = some entries :=
  decodeEntries_encodeEntries entries h

/-- Witness for C5 at a concrete two-party set with an external occupant, a
vacant slot and a millisecond-precision `createdAt`. -/
theorem save_load_roundtrip_witness :
    (∀ e ∈ [("party_1", partyMixed), ("party_2", partyM1M2)],
        e.2.createdAt < msLimit) ∧
    decodeEntries (encodeEntries [("party_1", partyMixed),
        ("party_2", partyM1M2)]) =
      some [("party_1", partyMixed), ("party_2", partyM1M2)] :=
  ⟨by decide,
   save_load_roundtrip [("party_1", partyMixed), ("party_2", partyM1M2)]
     (by decide)⟩

/-- Claim C6: the armed delay is `max 0 (lockTimeout - (now - createdAt))`;
when the deadline has not yet passed the timer fires exactly at
`createdAt + lockTimeout` (so total lifetime never exceeds the timeout),
when the deadline already passed the delay is zero (immediate firing), and
`loadData` re-arms every restored party from its restored `createdAt`. -/
theorem expiry_delay_spec :
    (∀ now c : Int, setupLockDelay now c = max 0 (lockTimeout - (now - c))) ∧
    (∀ now c : Int, now - c ≤ lockTimeout →
        now + setupLockDelay now c = c + lockTimeout) ∧
    (∀ now c : Int, lockTimeout ≤ now - c → setupLockDelay now c = 0) ∧
    (∀ (entries : List (String × Party)) (now : Int),
        loadArmDelays entries now =
          entries.map (fun e => (e.1, setupLockDelay now (e.2.createdAt : Int)))) := by
  refine ⟨fun _ _ => rfl, ?_, ?_, fun _ _ => rfl⟩
  · intro now c h
    rw [setupLockDelay, max_def]
    rw [lockTimeout] at h ⊢
    split <;> omega
  · intro now c h
    rw [setupLockDelay, max_def]
    rw [lockTimeout] at h ⊢
    split <;> omega

/-- Witness for C6: one hour into a party's life the timer fires exactly at
the three-hour mark, and a party whose deadline passed long ago is re-armed
with zero delay. -/
theorem expiry_delay_spec_witness :
    ((3600000 : Int) - 0 ≤ lockTimeout ∧
      (3600000 : Int) + setupLockDelay 3600000 0 = 0 + lockTimeout) ∧
    (lockTimeout ≤ (99999999999 : Int) - 0 ∧
      setupLockDelay 99999999999 0 = 0) :=
  ⟨⟨by decide, expiry_delay_spec.2.1 3600000 0 (by decide)⟩,
   ⟨by decide, expiry_delay_spec.2.2.1 99999999999 0 (by decide)⟩⟩

/-- Claim C7 counterexample: `lockParty` returns before deleting when the
party has no posted message (`!party.messageId` early return), so `expire`
on this Active party leaves it in the active set — refuting "expire on an
Active party removes that party". -/
theorem expire_keeps_unposted_party :
    mapGet stWithUnposted.parties "party_2" = some partyUnposted ∧
    applyOp stWithUnposted (.expire "party_2") = (.ok, stWithUnposted) := by
  decide

/-- Claim C7 as amended: `expire` on an Active party that has a posted
message removes it from the active set and persists the removal; `expire`
on an id absent from the active set is an errorless no-op; and a second
`expire` on the same id is always a no-op (the first either removed the
party or changed nothing). -/
theorem expire_amended :
    (∀ (st : BotState) (pid : String) (p : Party) (mid : String),
        mapGet st.parties pid = some p → p.messageId = some mid →
        applyOp st (.expire pid) =
          (.ok, ⟨mapErase st.parties pid, mapErase st.parties pid⟩)) ∧
    (∀ (st : BotState) (pid : String), mapGet st.parties pid = none →
        applyOp st (.expire pid) = (.ok, st)) ∧
    (∀ (st : BotState) (pid : String),
        applyOp (applyOp st (.expire pid)).2 (.expire pid) =
          (.ok, (applyOp st (.expire pid)).2)) := by
  refine ⟨?_, ?_, ?_⟩
  · intro st pid p mid hget hmid
    simp only [applyOp, expireApply, hget, hmid]
    rfl
  · intro st pid hget
    simp only [applyOp, expireApply, hget]
  · intro st pid
    simp only [applyOp, expireApply]
    cases hget : mapGet st.parties pid with
    | none => simp only [hget]
    | some p =>
      simp only [hget]
      cases hm : p.messageId with
      | none => simp only [hget, hm]
      | some mid =>
        simp only [saveSnapshot, mapGet_mapErase_self]

/-- Witness for C7 (amended): expiring the posted party removes and persists
it; expiring an absent id and re-expiring are no-ops. -/
theorem expire_amended_witness :
    (mapGet stMixed.parties "party_1" = some partyMixed ∧
      partyMixed.messageId = some "42" ∧
      applyOp stMixed (.expire "party_1") =
        (.ok, ⟨mapErase stMixed.parties "party_1",
               mapErase stMixed.parties "party_1"⟩)) ∧
    (mapGet stMixed.parties "ghost" = none ∧
      applyOp stMixed (.expire "ghost") = (.ok, stMixed)) ∧
    applyOp (applyOp stMixed (.expire "party_1")).2 (.expire "party_1") =
      (.ok, (applyOp stMixed (.expire "party_1")).2) :=
  ⟨⟨by decide, by decide,
    expire_amended.1 stMixed "party_1" partyMixed "42" (by decide) (by decide)⟩,
   ⟨by decide, expire_amended.2.1 stMixed "ghost" (by decide)⟩,
   expire_amended.2.2 stMixed "party_1"⟩

/-- Claim C8 counterexample: "m9" occupies no slot of `partyM1Free` (it is
not a Member-variant occupant of the party), yet the leader's promote
succeeds and installs "m9" as leader — the `promotepick_` branch checks only
the "IGN:" marker, never occupancy, refuting "fails with InvalidTarget when
newLeaderId is not a Member-variant occupant". -/
theorem promote_accepts_non_occupant :
    (partyM1Free.slots.all (fun s => !(s.user == some "m9"))) = true ∧
    promoteApply partyM1Free "L" "m9" =
      (.ok, ⟨"DoASC", "m9", 8, [⟨"MT", some "m1"⟩, ⟨"TT", none⟩],
             1700000000000, some "9002"⟩) := by
  decide

/-- Claim C8 as amended: promote fails with NotLeader when the requester is
not the current leader; fails with InvalidTarget exactly when the target id
carries the External "IGN:" marker (so External occupants are ineligible);
any other target string — occupant or not — is accepted, setting the
leader to it without requiring the new leader to occupy a slot. -/
theorem promote_amended :
    (∀ (p : Party) (uid target : String), uid ≠ p.leader →
        promoteApply p uid target = (.err .NotLeader, p)) ∧
    (∀ (p : Party) (target : String), startsWithIGN target = true →
        promoteApply p p.leader target = (.err .InvalidTarget, p)) ∧
    (∀ (p : Party) (target : String), startsWithIGN target = false →
        promoteApply p p.leader target = (.ok, { p with leader := target })) := by
  refine ⟨?_, ?_, ?_⟩
  · intro p uid target h
    rw [promoteApply, if_pos h]
  · intro p target h
    rw [promoteApply, if_neg (fun hc => hc rfl)]
    simp only [h, if_true]
  · intro p target h
    rw [promoteApply, if_neg (fun hc => hc rfl)]
    simp only [h, Bool.false_eq_true, if_false]

/-- Witness for C8 (amended) at concrete inputs: a non-leader is rejected,
the external occupant identity "IGN:Bob" is rejected as leader, and a plain
member id is accepted. -/
theorem promote_amended_witness :
    ("m1" ≠ partyM1Free.leader ∧
      promoteApply partyM1Free "m1" "m2" = (.err .NotLeader, partyM1Free)) ∧
    (startsWithIGN "IGN:Bob" = true ∧
      promoteApply partyMixed partyMixed.leader "IGN:Bob" =
        (.err .InvalidTarget, partyMixed)) ∧
    (startsWithIGN "m1" = false ∧
      promoteApply partyMixed partyMixed.leader "m1" =
        (.ok, { partyMixed with leader := "m1" })) :=
  ⟨⟨by decide, promote_amended.1 partyM1Free "m1" "m2" (by decide)⟩,
   ⟨by decide, promote_amended.2.1 partyMixed "IGN:Bob" (by decide)⟩,
   ⟨by decide, promote_amended.2.2 partyMixed "m1" (by decide)⟩⟩

/-- Claim C9: vacate (leave) reports success and clears every slot whose
occupant equals the leaving member — not just the first — while the leader,
the slot count, and every non-matching slot are unchanged; it succeeds even
when the member occupies no slot. -/
theorem vacate_clears_every_slot (st : BotState) (pid uid : String)
    (p : Party) (hget : mapGet st.parties pid = some p) :
    (applyOp st (.vacate pid uid)).1 = .ok ∧
    mapGet (applyOp st (.vacate pid uid)).2.parties pid =
      some (leaveApply p uid) ∧
    (leaveApply p uid).leader = p.leader ∧
    (leaveApply p uid).slots.length = p.slots.length ∧
    (∀ (i : Nat) (s : PartySlot), p.slots.get? i = some s →
      (leaveApply p uid).slots.get? i =
        some (if s.user == some uid then { s with user := none } else s)) := by
  refine ⟨?_, ?_, rfl, ?_, ?_⟩
  · simp only [applyOp, hget]
  · simp only [applyOp, hget, commitParty, saveSnapshot]
    exact mapGet_mapSet_self st.parties pid (leaveApply p uid)
  · simp only [leaveApply, List.length_map]
  · intro i s hs
    simp only [leaveApply, List.get?_map, hs, Option.map_some']

/-- Witness for C9: "m1" occupies two slots of `partyM1Twice`; the vacate
operation succeeds and stores the fully cleaned roster. -/
theorem vacate_clears_every_slot_witness :
    mapGet stM1Twice.parties "party_1" = some partyM1Twice ∧
    (applyOp stM1Twice (.vacate "party_1" "m1")).1 = .ok ∧
    mapGet (applyOp stM1Twice (.vacate "party_1" "m1")).2.parties "party_1" =
      some (leaveApply partyM1Twice "m1") :=
  ⟨by decide,
   (vacate_clears_every_slot stM1Twice "party_1" "m1" partyM1Twice
     (by decide)).1,
   (vacate_clears_every_slot stM1Twice "party_1" "m1" partyM1Twice
     (by decide)).2.1⟩

/-- Claim C10: the external-player modal trims the submitted name before the
emptiness check — a leader's submission of a whitespace-only name for an
empty slot is rejected as empty — and every successfully stored External
occupant is `"IGN:" ++ trimmed` with no white space at either edge of the
trimmed name. -/
theorem addExternal_trims (p : Party) (uid : String) (idx : Nat)
    (name : String) :
    (uid = p.leader → (∃ s, p.slots.get? idx = some s ∧ s.user = none) →
      name.data.all jsWhitespace = true →
      addExternalApply p uid idx name = (.err .EmptyName, p)) ∧
    (∀ p', addExternalApply p uid idx name = (.ok, p') →
      jsTrim name ≠ "" ∧ noEdgeWs (jsTrim name).data = true ∧
      (∃ s, p.slots.get? idx = some s ∧
        p'.slots.get? idx =
          some { s with user := some ("IGN:" ++ jsTrim name) })) := by
  constructor
  · intro hleader hslot hws
    obtain ⟨s, hs, hsu⟩ := hslot
    rw [addExternalApply, if_neg (fun hc => hc hleader), hs]
    simp only [hsu, Option.isSome_none, Bool.false_eq_true, if_false,
      jsTrim_all_ws name hws]
    rfl
  · intro p' hok
    rw [addExternalApply] at hok
    by_cases hl : uid ≠ p.leader
    · rw [if_pos hl] at hok
      exact absurd (congrArg Prod.fst hok) (by simp)
    · rw [if_neg hl] at hok
      cases hg : p.slots.get? idx with
      | none =>
        rw [hg] at hok
        exact absurd (congrArg Prod.fst hok) (by simp)
      | some s =>
        rw [hg] at hok
        cases hsu : s.user.isSome with
        | true =>
          simp only [hsu, if_true] at hok
          exact absurd (congrArg Prod.fst hok) (by simp)
        | false =>
          simp only [hsu, Bool.false_eq_true, if_false] at hok
          cases hb : (jsTrim name == "") with
          | true =>
            simp only [hb, if_true] at hok
            exact absurd (congrArg Prod.fst hok) (by simp)
          | false =>
            simp only [hb, Bool.false_eq_true, if_false] at hok
            have hp' : p' =
                { p with slots :=
                    setUser p.slots idx (some ("IGN:" ++ jsTrim name)) } :=
              (congrArg Prod.snd hok).symm
            refine ⟨?_, noEdgeWs_jsTrim name, ⟨s, rfl, ?_⟩⟩
            · rw [beq_eq_false_iff_ne] at hb
              exact hb
            · rw [hp']
              exact get?_setUser _ p.slots idx s hg

/-- Witness for C10: a whitespace-only submission is rejected as empty, and
" Bob " is stored as the external occupant "IGN:Bob" with the surrounding
spaces removed. -/
theorem addExternal_trims_witness :
    addExternalApply partyM1Free "L" 1 "  " = (.err .EmptyName, partyM1Free) ∧
    (jsTrim " Bob " ≠ "" ∧ noEdgeWs (jsTrim " Bob ").data = true ∧
      (∃ s, partyM1Free.slots.get? 1 = some s ∧
        (⟨"DoASC", "L", 8, [⟨"MT", some "m1"⟩, ⟨"TT", some "IGN:Bob"⟩],
          1700000000000, some "9002"⟩ : Party).slots.get? 1 =
          some { s with user := some ("IGN:" ++ jsTrim " Bob ") })) :=
  ⟨(addExternal_trims partyM1Free "L" 1 "  ").1 rfl
     ⟨⟨"TT", none⟩, rfl, rfl⟩ (by decide),
   (addExternal_trims partyM1Free "L" 1 " Bob ").2
     ⟨"DoASC", "L", 8, [⟨"MT", some "m1"⟩, ⟨"TT", some "IGN:Bob"⟩],
      1700000000000, some "9002"⟩ (by decide)⟩
